import Mathlib

set_option linter.unusedVariables false

/-! Verification of the dataclass JSON serializer core and the cli source
resolver.  The serializer core is the method JsonSerializer.convert of
src/xsdata/formats/dataclass/serializers/json.py; the source resolver is
resolve_source of src/xsdata/cli.py.  External collaborators that the
serializer consumes but that live outside the two source files (the
metadata provider XmlContext, the value converter registry, the helper
collections.is_array and the class-type test is_model) are modelled from
the spec as explicit parameters, as documented on each definition. -/

/-- Field metadata, embedding XmlVar as consumed by convert: the runtime
accessor name, the externally visible name (local_name) and the optional
format hint. -/
structure FieldDescriptor where
  name : String
  local_name : String
  format : Option String

/-- The concrete Python sequence types recognised by collections.is_array
that the embedding covers (ordered sequences). -/
inductive ContainerKind where
  | list
  | tuple

/-- Shallow embedding of the Python runtime values that
JsonSerializer.convert dispatches on: primitives, dicts, sequences, enum
members (carrying their class name and underlying value), dataclass
instances (class name plus attribute list) and opaque scalars known only
by their class name. -/
inductive PyVal : Type where
  | vBool (b : Bool)
  | vInt (n : Int)
  | vFloat (lit : String)
  | vStr (s : String)
  | vNone
  | vDict (entries : List (String × PyVal))
  | vColl (kind : ContainerKind) (elems : List PyVal)
  | vEnum (cls : String) (value : PyVal)
  | vModel (cls : String) (fields : List (String × PyVal))
  | vOpaque (cls : String)

/-- The exceptions that can escape convert: XmlContextError from the
metadata provider, AttributeError from getattr, and the distinguishable
error of the converter registry for an unregistered type. -/
inductive ConvError where
  | metadataError (cls : String)
  | attributeError (cls nm : String)
  | unknownType (cls : String)

/-- Modelled from the spec: the Metadata Provider (XmlContext.build
composed with get_all_vars, absent from src).  It maps a class name to
its ordered field descriptors when the class is a describable record
type, and to none otherwise (XmlContext.build raises for such types). -/
abbrev XmlContext := String → Option (List FieldDescriptor)

/-- Modelled from the spec: the Value Converter Registry (absent from
src).  Given the class name of an opaque scalar and a format hint it
returns the encoded primitive, or none when no converter is registered
for that type. -/
abbrev Registry := String → Option String → Option PyVal

/-- The dict_factory parameter of JsonSerializer: assembles the ordered
field pairs into the output map (represented as an ordered pair list). -/
abbrev DictFactory := List (String × PyVal) → List (String × PyVal)

/-- The Python class name of a value, as used to key the metadata
provider and the converter registry. -/
def className : PyVal → String
  | .vBool _ => "bool"
  | .vInt _ => "int"
  | .vFloat _ => "float"
  | .vStr _ => "str"
  | .vNone => "NoneType"
  | .vDict _ => "dict"
  | .vColl .list _ => "list"
  | .vColl .tuple _ => "tuple"
  | .vEnum cls _ => cls
  | .vModel cls _ => cls
  | .vOpaque cls => cls

/-- Modelled from the spec: context.class_type.is_model (absent from
src) recognises a Model Node, i.e. a record instance of a type the
Metadata Provider can describe. -/
def is_model (ctx : XmlContext) : PyVal → Bool
  | .vModel cls _ => (ctx cls).isSome
  | .vBool _ => false
  | .vInt _ => false
  | .vFloat _ => false
  | .vStr _ => false
  | .vNone => false
  | .vDict _ => false
  | .vColl _ _ => false
  | .vEnum _ _ => false
  | .vOpaque _ => false

/-- The attribute list a value exposes to getattr: the fields of a
dataclass instance, nothing for other values. -/
def modelFields : PyVal → List (String × PyVal)
  | .vModel _ fields => fields
  | .vBool _ => []
  | .vInt _ => []
  | .vFloat _ => []
  | .vStr _ => []
  | .vNone => []
  | .vDict _ => []
  | .vColl _ _ => []
  | .vEnum _ _ => []
  | .vOpaque _ => []

/-- Embedding of getattr over the attribute list: first binding of the
requested name, none when the attribute is missing. -/
def getattr (fields : List (String × PyVal)) (nm : String) : Option PyVal :=
  match fields with
  | [] => none
  | (k, v) :: rest => if k = nm then some v else getattr rest nm

/-- Modelled from the spec: converter.serialize of the Value Converter
Registry (absent from src).  A null value converts to the primitive
null; any other value is encoded by the registered converter for its
class, and the absence of a converter is a distinguishable fatal
error. -/
def converterSerialize (reg : Registry) (obj : PyVal) (fmt : Option String) :
    Except ConvError PyVal :=
  match obj with
  | .vNone => .ok .vNone
  | o =>
    match reg (className o) fmt with
    | some p => .ok p
    | none => .error (.unknownType (className o))

/-- True exactly on the Python value None. -/
def isNoneV : PyVal → Bool
  | .vNone => true
  | .vBool _ => false
  | .vInt _ => false
  | .vFloat _ => false
  | .vStr _ => false
  | .vDict _ => false
  | .vColl _ _ => false
  | .vEnum _ _ => false
  | .vModel _ _ => false
  | .vOpaque _ => false

/-- One insertion step of Python dict construction: a duplicate key
keeps its first position and takes the last value. -/
def dictInsert (acc : List (String × PyVal)) (kv : String × PyVal) :
    List (String × PyVal) :=
  if acc.any (fun p => p.1 == kv.1) then
    acc.map (fun p => if p.1 == kv.1 then (p.1, kv.2) else p)
  else
    acc ++ [kv]

/-- Embedding of the default dict_factory, the Python dict constructor
applied to the ordered pair list: insertion order with last-value-wins
on duplicate keys. -/
def pythonDict (pairs : List (String × PyVal)) : List (String × PyVal) :=
  pairs.foldl dictInsert []

/-- Embedding of filter_none of json.py: the dict comprehension keeping
the pairs whose value is not None. -/
def filter_none (x : List (String × PyVal)) : List (String × PyVal) :=
  pythonDict (x.filter (fun p => !(isNoneV p.2)))

@[simp]
theorem except_ok_bind {ε α β : Type} (a : α) (f : α → Except ε β) :
    (Except.ok a >>= f) = f a := rfl

@[simp]
theorem except_error_bind {ε α β : Type} (e : ε) (f : α → Except ε β) :
    ((Except.error e : Except ε α) >>= f) = Except.error e := rfl

@[simp]
theorem except_map_ok {ε α β : Type} (f : α → β) (a : α) :
    Except.map f (Except.ok a : Except ε α) = Except.ok (f a) := rfl

@[simp]
theorem except_map_error {ε α β : Type} (f : α → β) (e : ε) :
    Except.map f (Except.error e : Except ε α) = Except.error e := rfl

@[simp]
theorem except_pure_eq {ε α : Type} (a : α) :
    (pure a : Except ε α) = Except.ok a := rfl

theorem getattr_sizeOf {fields : List (String × PyVal)} {nm : String} {val : PyVal}
    (h : getattr fields nm = some val) : sizeOf val < sizeOf fields := by
  induction fields with
  | nil => simp [getattr] at h
  | cons p rest ih =>
    obtain ⟨k, v⟩ := p
    rw [getattr] at h
    by_cases hk : k = nm
    · simp [hk] at h
      subst h
      simp
      omega
    · simp [hk] at h
      have := ih h
      simp
      omega

theorem modelFields_sizeOf (o : PyVal) : sizeOf (modelFields o) ≤ sizeOf o := by
  cases o <;> simp [modelFields] <;> omega

/-- The element-wise conversion loop of a Python list comprehension over
a sequence: left to right, first exception propagating.  The conversion
function is supplied together with a membership proof so that the caller
can justify termination. -/
def goList : (elems : List PyVal) →
    ((x : PyVal) → x ∈ elems → Except ConvError PyVal) →
    Except ConvError (List PyVal)
  | [], _ => .ok []
  | x :: xs, conv => do
    let y ← conv x (List.mem_cons_self x xs)
    let ys ← goList xs (fun z hz => conv z (List.mem_cons_of_mem x hz))
    return y :: ys

/-- The field loop of convert over the descriptor list: for each
descriptor in order, getattr the field value and convert it under that
descriptor, pairing the result with the descriptor's external name.  The
conversion function is supplied with a size bound so that the caller can
justify termination. -/
def goVars (cls : String) (fields : List (String × PyVal))
    (conv : (val : PyVal) → sizeOf val < sizeOf fields →
      Option FieldDescriptor → Except ConvError PyVal) :
    List FieldDescriptor → Except ConvError (List (String × PyVal))
  | [] => .ok []
  | v :: vs => do
    match hg : getattr fields v.name with
    | none => .error (.attributeError cls v.name)
    | some val =>
      let c ← conv val (getattr_sizeOf hg) (some v)
      let rest ← goVars cls fields conv vs
      return (v.local_name, c) :: rest

/-- The model branch of convert (json.py lines 67 to 72): obtain the
field descriptors of the value's class from the metadata provider (the
provider raises on a class it cannot describe), run the field loop, and
assemble the resulting ordered pairs with the dict_factory. -/
def modelPath (ctx : XmlContext) (df : DictFactory) (o : PyVal)
    (conv : (val : PyVal) → sizeOf val < sizeOf o →
      Option FieldDescriptor → Except ConvError PyVal) :
    Except ConvError PyVal :=
  match ctx (className o) with
  | none => .error (.metadataError (className o))
  | some vars =>
    (goVars (className o) (modelFields o)
      (fun val h v => conv val (Nat.lt_of_lt_of_le h (modelFields_sizeOf o)) v)
      vars).map
      (fun pairs => .vDict (df pairs))

/-- Embedding of JsonSerializer.convert of json.py, lines 61 to 83.
Each arm first evaluates the guard of the first dispatch step, the
enclosing field being absent or the value being a model; when it holds,
a sequence is converted element-wise with no enclosing field into a
Python list and any other value takes the model path.  Otherwise a
sequence is rebuilt with its own constructor from the elements
converted under the same field, dict, int, float, str and bool values
are returned unchanged, an enum recurses on its underlying value, and
everything else is delegated to the converter registry with the
field's format hint. -/
def convert (ctx : XmlContext) (reg : Registry) (df : DictFactory)
    (obj : PyVal) (var : Option FieldDescriptor) : Except ConvError PyVal :=
  match obj with
  | .vColl k elems =>
    if var.isNone || is_model ctx (.vColl k elems) then
      (goList elems (fun x hx => convert ctx reg df x none)).map
        (fun ys => .vColl .list ys)
    else
      (goList elems (fun x hx => convert ctx reg df x var)).map
        (fun ys => .vColl k ys)
  | .vDict entries =>
    if var.isNone || is_model ctx (.vDict entries) then
      modelPath ctx df (.vDict entries) (fun val hval v => convert ctx reg df val v)
    else .ok (.vDict entries)
  | .vInt n =>
    if var.isNone || is_model ctx (.vInt n) then
      modelPath ctx df (.vInt n) (fun val hval v => convert ctx reg df val v)
    else .ok (.vInt n)
  | .vFloat s =>
    if var.isNone || is_model ctx (.vFloat s) then
      modelPath ctx df (.vFloat s) (fun val hval v => convert ctx reg df val v)
    else .ok (.vFloat s)
  | .vStr s =>
    if var.isNone || is_model ctx (.vStr s) then
      modelPath ctx df (.vStr s) (fun val hval v => convert ctx reg df val v)
    else .ok (.vStr s)
  | .vBool b =>
    if var.isNone || is_model ctx (.vBool b) then
      modelPath ctx df (.vBool b) (fun val hval v => convert ctx reg df val v)
    else .ok (.vBool b)
  | .vEnum cls u =>
    if var.isNone || is_model ctx (.vEnum cls u) then
      modelPath ctx df (.vEnum cls u) (fun val hval v => convert ctx reg df val v)
    else convert ctx reg df u var
  | .vModel cls fields =>
    if var.isNone || is_model ctx (.vModel cls fields) then
      modelPath ctx df (.vModel cls fields) (fun val hval v => convert ctx reg df val v)
    else converterSerialize reg (.vModel cls fields) (var.bind FieldDescriptor.format)
  | .vNone =>
    if var.isNone || is_model ctx .vNone then
      modelPath ctx df .vNone (fun val hval v => convert ctx reg df val v)
    else converterSerialize reg .vNone (var.bind FieldDescriptor.format)
  | .vOpaque cls =>
    if var.isNone || is_model ctx (.vOpaque cls) then
      modelPath ctx df (.vOpaque cls) (fun val hval v => convert ctx reg df val v)
    else converterSerialize reg (.vOpaque cls) (var.bind FieldDescriptor.format)
termination_by sizeOf obj
decreasing_by
  all_goals simp_wf
  all_goals try exact Nat.lt_of_lt_of_le (List.sizeOf_lt_of_mem hx) (by omega)
  all_goals try simp at hval
  all_goals omega

/-- The element-wise conversion of a sequence's elements under a fixed
enclosing field, as performed by the two comprehensions of convert. -/
def convertElems (ctx : XmlContext) (reg : Registry) (df : DictFactory)
    (elems : List PyVal) (var : Option FieldDescriptor) :
    Except ConvError (List PyVal) :=
  goList elems (fun x hx => convert ctx reg df x var)

/-- The ordered (external name, converted value) pairs of a record's
fields, as handed by convert to the dict_factory. -/
def convertFields (ctx : XmlContext) (reg : Registry) (df : DictFactory)
    (cls : String) (fields : List (String × PyVal))
    (vars : List FieldDescriptor) :
    Except ConvError (List (String × PyVal)) :=
  goVars cls fields (fun val h v => convert ctx reg df val v) vars

theorem convert_coll_none (ctx : XmlContext) (reg : Registry) (df : DictFactory)
    (k : ContainerKind) (xs : List PyVal) :
    convert ctx reg df (.vColl k xs) none
      = (convertElems ctx reg df xs none).map (fun ys => .vColl .list ys) := by
  rw [convert]
  simp [is_model]
  rfl

theorem convert_coll_some (ctx : XmlContext) (reg : Registry) (df : DictFactory)
    (k : ContainerKind) (xs : List PyVal) (f : FieldDescriptor) :
    convert ctx reg df (.vColl k xs) (some f)
      = (convertElems ctx reg df xs (some f)).map (fun ys => .vColl k ys) := by
  rw [convert]
  simp [is_model]
  rfl

theorem convert_model (ctx : XmlContext) (reg : Registry) (df : DictFactory)
    (cls : String) (fields : List (String × PyVal))
    (vars : List FieldDescriptor) (var : Option FieldDescriptor)
    (h : ctx cls = some vars) :
    convert ctx reg df (.vModel cls fields) var
      = (convertFields ctx reg df cls fields vars).map
          (fun pairs => .vDict (df pairs)) := by
  rw [convert]
  simp [is_model, h, modelPath, className, modelFields]
  rfl

theorem convert_enum_some (ctx : XmlContext) (reg : Registry) (df : DictFactory)
    (cls : String) (u : PyVal) (f : FieldDescriptor) :
    convert ctx reg df (.vEnum cls u) (some f) = convert ctx reg df u (some f) := by
  rw [convert]
  simp [is_model]

/-- True exactly on the values the isinstance test of json.py line 76
accepts together with None: the generic-value domain of the spec. -/
def isGenericPrimitive : PyVal → Bool
  | .vBool _ => true
  | .vInt _ => true
  | .vFloat _ => true
  | .vStr _ => true
  | .vNone => true
  | .vDict _ => true
  | .vColl _ _ => false
  | .vEnum _ _ => false
  | .vModel _ _ => false
  | .vOpaque _ => false

theorem convert_prim_some (ctx : XmlContext) (reg : Registry) (df : DictFactory)
    (v : PyVal) (f : FieldDescriptor) (h : isGenericPrimitive v = true) :
    convert ctx reg df v (some f) = .ok v := by
  cases v <;> simp [isGenericPrimitive] at h <;>
    (rw [convert]; simp [is_model, converterSerialize])

theorem convert_opaque_some (ctx : XmlContext) (reg : Registry) (df : DictFactory)
    (cls : String) (f : FieldDescriptor) (h : reg cls f.format = none) :
    convert ctx reg df (.vOpaque cls) (some f) = .error (.unknownType cls) := by
  rw [convert]
  simp [is_model, converterSerialize, className, h]

theorem convertElems_nil (ctx : XmlContext) (reg : Registry) (df : DictFactory)
    (var : Option FieldDescriptor) :
    convertElems ctx reg df [] var = .ok [] := rfl

theorem convertElems_cons (ctx : XmlContext) (reg : Registry) (df : DictFactory)
    (x : PyVal) (xs : List PyVal) (var : Option FieldDescriptor) :
    convertElems ctx reg df (x :: xs) var
      = (convert ctx reg df x var) >>= (fun y =>
          (convertElems ctx reg df xs var) >>= (fun ys => .ok (y :: ys))) := rfl

theorem convertElems_ok (ctx : XmlContext) (reg : Registry) (df : DictFactory)
    (var : Option FieldDescriptor) :
    ∀ (xs : List PyVal) (ys : List PyVal),
      convertElems ctx reg df xs var = .ok ys →
      ys.length = xs.length
      ∧ ∀ i (hi : i < xs.length), ∃ hy : i < ys.length,
          convert ctx reg df (xs.get ⟨i, hi⟩) var = .ok (ys.get ⟨i, hy⟩) := by
  intro xs
  induction xs with
  | nil =>
    intro ys h
    rw [convertElems_nil] at h
    cases h
    simp
  | cons x xs ih =>
    intro ys h
    rw [convertElems_cons] at h
    cases hx : convert ctx reg df x var with
    | error e => rw [hx] at h; simp at h
    | ok y =>
      rw [hx] at h
      simp at h
      cases ht : convertElems ctx reg df xs var with
      | error e => rw [ht] at h; simp at h
      | ok ys0 =>
        rw [ht] at h
        simp at h
        subst h
        obtain ⟨hlen, hget⟩ := ih ys0 ht
        refine ⟨by simp [hlen], ?_⟩
        intro i hi
        cases i with
        | zero => exact ⟨by simp, by simpa using hx⟩
        | succ j =>
          have hj : j < xs.length := by simpa using hi
          obtain ⟨hy, hc⟩ := hget j hj
          exact ⟨by simpa using Nat.succ_lt_succ hy, by simpa using hc⟩

theorem convertFields_nil (ctx : XmlContext) (reg : Registry) (df : DictFactory)
    (cls : String) (fields : List (String × PyVal)) :
    convertFields ctx reg df cls fields [] = .ok [] := rfl

theorem convertFields_cons (ctx : XmlContext) (reg : Registry) (df : DictFactory)
    (cls : String) (fields : List (String × PyVal))
    (v : FieldDescriptor) (vs : List FieldDescriptor) :
    convertFields ctx reg df cls fields (v :: vs)
      = match getattr fields v.name with
        | none => .error (.attributeError cls v.name)
        | some val =>
          (convert ctx reg df val (some v)) >>= (fun c =>
            (convertFields ctx reg df cls fields vs) >>= (fun rest =>
              .ok ((v.local_name, c) :: rest))) := by
  rw [convertFields, goVars]
  cases hg : getattr fields v.name <;> rfl

theorem convertFields_ok (ctx : XmlContext) (reg : Registry) (df : DictFactory)
    (cls : String) (fields : List (String × PyVal)) :
    ∀ (vars : List FieldDescriptor) (pairs : List (String × PyVal)),
      convertFields ctx reg df cls fields vars = .ok pairs →
      pairs.map Prod.fst = vars.map FieldDescriptor.local_name
      ∧ ∀ i (hi : i < vars.length), ∃ val,
          getattr fields (vars.get ⟨i, hi⟩).name = some val
          ∧ ∃ hp : i < pairs.length,
              convert ctx reg df val (some (vars.get ⟨i, hi⟩))
                = .ok (pairs.get ⟨i, hp⟩).2 := by
  intro vars
  induction vars with
  | nil =>
    intro pairs h
    rw [convertFields_nil] at h
    cases h
    simp
  | cons v vs ih =>
    intro pairs h
    rw [convertFields_cons] at h
    cases hg : getattr fields v.name with
    | none => rw [hg] at h; simp at h
    | some val =>
      rw [hg] at h
      simp at h
      cases hc : convert ctx reg df val (some v) with
      | error e => rw [hc] at h; simp at h
      | ok c =>
        rw [hc] at h
        simp at h
        cases ht : convertFields ctx reg df cls fields vs with
        | error e => rw [ht] at h; simp at h
        | ok rest =>
          rw [ht] at h
          simp at h
          subst h
          obtain ⟨hkeys, hget⟩ := ih rest ht
          refine ⟨by simp [hkeys], ?_⟩
          intro i hi
          cases i with
          | zero => exact ⟨val, by simpa using hg, by simp, by simpa using hc⟩
          | succ j =>
            have hj : j < vs.length := by simpa using hi
            obtain ⟨val0, hg0, hp0, hc0⟩ := hget j hj
            exact ⟨val0, by simpa using hg0,
              by simpa using Nat.succ_lt_succ hp0, by simpa using hc0⟩

theorem foldl_dictInsert (l : List (String × PyVal)) :
    ∀ acc : List (String × PyVal),
      (((acc ++ l).map Prod.fst).Nodup) → l.foldl dictInsert acc = acc ++ l := by
  induction l with
  | nil => intro acc h; simp
  | cons kv t ih =>
    intro acc h
    obtain ⟨k, v⟩ := kv
    have hnotin : ∀ p ∈ acc, ¬(p.1 = k) := by
      intro p hp hpk
      rw [List.map_append] at h
      have hd := (List.nodup_append.mp h).2.2
      exact hd (List.mem_map_of_mem Prod.fst hp) (by simp [hpk])
    have hk : (acc.any (fun p => p.1 == k)) = false := by
      rw [List.any_eq_false]
      intro p hp
      simpa using hnotin p hp
    rw [List.foldl_cons, dictInsert]
    simp only [hk]
    simp only [Bool.false_eq_true, if_false]
    rw [ih (acc ++ [(k, v)]) (by simpa using h)]
    simp

theorem pythonDict_self (l : List (String × PyVal))
    (h : (l.map Prod.fst).Nodup) : pythonDict l = l := by
  simpa using foldl_dictInsert l [] (by simpa using h)

theorem filter_none_eq (l : List (String × PyVal))
    (h : (l.map Prod.fst).Nodup) :
    filter_none l = l.filter (fun p => !(isNoneV p.2)) := by
  rw [filter_none]
  apply pythonDict_self
  exact List.Nodup.sublist (List.Sublist.map Prod.fst (List.filter_sublist l)) h

/-! Concrete fixtures used by witnesses and counterexamples: an empty
metadata provider and registry (no describable class, no registered
converter), a provider describing a two-field record class named Point,
and a provider describing a field-less record class named C. -/

def ctxEmpty : XmlContext := fun _ => none

def regEmpty : Registry := fun _ _ => none

def fdX : FieldDescriptor := { name := "x", local_name := "x", format := none }

def fdY : FieldDescriptor := { name := "y", local_name := "y", format := none }

def ctxPoint : XmlContext := fun c =>
  if c = "Point" then some [fdX, fdY] else none

def ctxC : XmlContext := fun c =>
  if c = "C" then some [] else none

theorem isNoneV_eq_false {x : PyVal} : isNoneV x = false ↔ x ≠ PyVal.vNone := by
  cases x <;> simp [isNoneV]

/-- C1: for every record type the metadata provider describes (with
pairwise distinct external names, as a map's declared key order
requires) whose field conversions succeed, converting an instance with
the default dict factory produces a map whose key order equals the
provider's declared field order, each key being the descriptor's
external name paired with the recursive conversion of the corresponding
field value under that descriptor as enclosing field. -/
theorem C1_record_field_order (ctx : XmlContext) (reg : Registry)
    (cls : String) (fields : List (String × PyVal))
    (vars : List FieldDescriptor) (var : Option FieldDescriptor)
    (pairs : List (String × PyVal))
    (hctx : ctx cls = some vars)
    (hpairs : convertFields ctx reg pythonDict cls fields vars = .ok pairs)
    (hnames : (vars.map FieldDescriptor.local_name).Nodup) :
    convert ctx reg pythonDict (.vModel cls fields) var = .ok (.vDict pairs)
    ∧ pairs.map Prod.fst = vars.map FieldDescriptor.local_name
    ∧ ∀ i (hi : i < vars.length), ∃ val,
        getattr fields (vars.get ⟨i, hi⟩).name = some val
        ∧ ∃ hp : i < pairs.length,
            convert ctx reg pythonDict val (some (vars.get ⟨i, hi⟩))
              = .ok (pairs.get ⟨i, hp⟩).2 := by
  obtain ⟨hkeys, hget⟩ :=
    convertFields_ok ctx reg pythonDict cls fields vars pairs hpairs
  have hnodup : (pairs.map Prod.fst).Nodup := by rw [hkeys]; exact hnames
  refine ⟨?_, hkeys, hget⟩
  rw [convert_model ctx reg pythonDict cls fields vars var hctx, hpairs]
  simp [pythonDict_self pairs hnodup]

/-- C1 witness: a Point record with fields x and y declared in that
order converts to the map with keys x then y. -/
theorem C1_witness :
    convert ctxPoint regEmpty pythonDict
      (.vModel "Point" [ ("x", .vInt 1), ("y", .vInt 2) ]) none
      = .ok (.vDict [ ("x", .vInt 1), ("y", .vInt 2) ]) := by
  have h := C1_record_field_order ctxPoint regEmpty "Point"
    [ ("x", .vInt 1), ("y", .vInt 2) ] [fdX, fdY] none
    [ ("x", .vInt 1), ("y", .vInt 2) ]
    (by simp [ctxPoint])
    (by simp [convertFields, goVars, getattr, convert, is_model, fdX, fdY])
    (by simp [fdX, fdY])
  exact h.1

/-- C2 counterexample: the integer 5 is in the generic-value domain, yet
converting it at the root (no enclosing field) does not return it
unchanged: dispatch step 1 applies and the metadata provider, asked to
describe the class int, fails. -/
theorem C2_counterexample :
    convert ctxEmpty regEmpty pythonDict (.vInt 5) none
      = .error (.metadataError "int")
    ∧ convert ctxEmpty regEmpty pythonDict (.vInt 5) none
      ≠ .ok (.vInt 5) := by
  have h : convert ctxEmpty regEmpty pythonDict (.vInt 5) none
      = .error (.metadataError "int") := by
    rw [convert]
    simp [is_model, modelPath, className, ctxEmpty]
  exact ⟨h, by rw [h]; simp⟩

/-- C2 amended: for every value already in the generic-value domain
(boolean, integer, floating point, text, null, or an existing generic
map), convert returns it unchanged when called under any non-absent
enclosing field; at the root, dispatch step 1 applies instead, so the
value is treated as a record and conversion fails with a metadata
error rather than returning the value. -/
theorem C2_primitive_identity (ctx : XmlContext) (reg : Registry)
    (df : DictFactory) (v : PyVal) (f : FieldDescriptor)
    (h : isGenericPrimitive v = true) :
    convert ctx reg df v (some f) = .ok v :=
  convert_prim_some ctx reg df v f h

/-- C2 witness: the text value a converts to itself under an enclosing
field. -/
theorem C2_witness :
    isGenericPrimitive (.vStr "a") = true
    ∧ convert ctxEmpty regEmpty pythonDict (.vStr "a") (some fdX)
        = .ok (.vStr "a") :=
  ⟨by decide, C2_primitive_identity ctxEmpty regEmpty pythonDict (.vStr "a") fdX (by decide)⟩

/-- C3: for a describable record (with distinct external names) whose
field conversions succeed under each builder: with the default builder
a null-valued field yields a map entry pairing its external name with
null, while the omit-null builder removes exactly the null-valued
pairs, keeping all other entries and their order unchanged. -/
theorem C3_null_policy (ctx : XmlContext) (reg : Registry)
    (cls : String) (fields : List (String × PyVal))
    (vars : List FieldDescriptor) (var : Option FieldDescriptor)
    (pairsD pairsF : List (String × PyVal))
    (hctx : ctx cls = some vars)
    (hnames : (vars.map FieldDescriptor.local_name).Nodup)
    (hD : convertFields ctx reg pythonDict cls fields vars = .ok pairsD)
    (hF : convertFields ctx reg filter_none cls fields vars = .ok pairsF) :
    convert ctx reg pythonDict (.vModel cls fields) var = .ok (.vDict pairsD)
    ∧ convert ctx reg filter_none (.vModel cls fields) var
        = .ok (.vDict (pairsF.filter (fun p => !(isNoneV p.2))))
    ∧ (∀ i (hi : i < vars.length),
        getattr fields (vars.get ⟨i, hi⟩).name = some .vNone →
        ((vars.get ⟨i, hi⟩).local_name, PyVal.vNone) ∈ pairsD)
    ∧ ∀ q ∈ pairsF.filter (fun p => !(isNoneV p.2)), q.2 ≠ PyVal.vNone := by
  obtain ⟨hkeysD, hgetD⟩ :=
    convertFields_ok ctx reg pythonDict cls fields vars pairsD hD
  obtain ⟨hkeysF, hgetF⟩ :=
    convertFields_ok ctx reg filter_none cls fields vars pairsF hF
  have hnodupD : (pairsD.map Prod.fst).Nodup := by rw [hkeysD]; exact hnames
  have hnodupF : (pairsF.map Prod.fst).Nodup := by rw [hkeysF]; exact hnames
  refine ⟨?_, ?_, ?_, ?_⟩
  · rw [convert_model ctx reg pythonDict cls fields vars var hctx, hD]
    simp [pythonDict_self pairsD hnodupD]
  · rw [convert_model ctx reg filter_none cls fields vars var hctx, hF]
    simp [filter_none_eq pairsF hnodupF]
  · intro i hi hnull
    obtain ⟨val, hgat, hp, hconv⟩ := hgetD i hi
    rw [hnull] at hgat
    cases hgat
    rw [convert_prim_some ctx reg pythonDict .vNone (vars.get ⟨i, hi⟩) (by decide)] at hconv
    have hfst : (pairsD.get ⟨i, hp⟩).1 = (vars.get ⟨i, hi⟩).local_name := by
      have hlen : pairsD.length = vars.length := by
        have := congrArg List.length hkeysD
        simpa using this
      have := List.get_of_eq hkeysD ⟨i, by simpa [hlen] using hp⟩
      simpa using this
    have hsnd : (pairsD.get ⟨i, hp⟩).2 = PyVal.vNone := by
      simpa using hconv.symm
    have : pairsD.get ⟨i, hp⟩ = ((vars.get ⟨i, hi⟩).local_name, PyVal.vNone) := by
      rw [Prod.ext_iff]
      exact ⟨hfst, hsnd⟩
    rw [← this]
    exact List.get_mem pairsD i hp
  · intro q hq
    have := (List.mem_filter.mp hq).2
    exact isNoneV_eq_false.mp (by simpa using this)

/-- C3 witness: Point with x equal to 1 and y null keeps the null entry
under the default builder and drops exactly that entry, order
unchanged, under the omit-null builder. -/
theorem C3_witness :
    convert ctxPoint regEmpty pythonDict
      (.vModel "Point" [ ("x", .vInt 1), ("y", .vNone) ]) none
      = .ok (.vDict [ ("x", .vInt 1), ("y", .vNone) ])
    ∧ convert ctxPoint regEmpty filter_none
      (.vModel "Point" [ ("x", .vInt 1), ("y", .vNone) ]) none
      = .ok (.vDict [ ("x", .vInt 1) ]) := by
  have h := C3_null_policy ctxPoint regEmpty "Point"
    [ ("x", .vInt 1), ("y", .vNone) ] [fdX, fdY] none
    [ ("x", .vInt 1), ("y", .vNone) ] [ ("x", .vInt 1), ("y", .vNone) ]
    (by simp [ctxPoint])
    (by simp [fdX, fdY])
    (by simp [convertFields, goVars, getattr, convert, is_model,
      converterSerialize, fdX, fdY])
    (by simp [convertFields, goVars, getattr, convert, is_model,
      converterSerialize, fdX, fdY])
  refine ⟨h.1, ?_⟩
  have h2 := h.2.1
  simpa [isNoneV] using h2

/-- C4: a collection reached under a non-absent enclosing field (never a
model node) converts to a same-shape collection of the same length and
element order, each element converted under the same enclosing field as
the collection itself. -/
theorem C4_collection_shape (ctx : XmlContext) (reg : Registry)
    (df : DictFactory) (k : ContainerKind) (xs ys : List PyVal)
    (f : FieldDescriptor)
    (h : convertElems ctx reg df xs (some f) = .ok ys) :
    convert ctx reg df (.vColl k xs) (some f) = .ok (.vColl k ys)
    ∧ ys.length = xs.length
    ∧ ∀ i (hi : i < xs.length), ∃ hy : i < ys.length,
        convert ctx reg df (xs.get ⟨i, hi⟩) (some f) = .ok (ys.get ⟨i, hy⟩) := by
  obtain ⟨hlen, hget⟩ := convertElems_ok ctx reg df (some f) xs ys h
  refine ⟨?_, hlen, hget⟩
  rw [convert_coll_some ctx reg df k xs f, h]
  rfl

/-- C4 witness: a two-element list of scalars under an enclosing field
converts element-wise in order, keeping shape and length. -/
theorem C4_witness :
    convert ctxEmpty regEmpty pythonDict
      (.vColl .list [ .vInt 1, .vStr "a" ]) (some fdX)
      = .ok (.vColl .list [ .vInt 1, .vStr "a" ]) := by
  have h := C4_collection_shape ctxEmpty regEmpty pythonDict .list
    [ .vInt 1, .vStr "a" ] [ .vInt 1, .vStr "a" ] fdX
    (by simp [convertElems, goList, convert, is_model])
  exact h.1

/-- C5 counterexample: at the root (absent enclosing field) an
enumeration member whose underlying value is a describable record does
not convert like its underlying value: step 1 applies to the member
itself, whose enum class the metadata provider cannot describe. -/
theorem C5_counterexample :
    convert ctxC regEmpty pythonDict (.vEnum "E" (.vModel "C" [])) none
      = .error (.metadataError "E")
    ∧ convert ctxC regEmpty pythonDict (.vModel "C" []) none
      = .ok (.vDict [])
    ∧ convert ctxC regEmpty pythonDict (.vEnum "E" (.vModel "C" [])) none
      ≠ convert ctxC regEmpty pythonDict (.vModel "C" []) none := by
  have h1 : convert ctxC regEmpty pythonDict (.vEnum "E" (.vModel "C" [])) none
      = .error (.metadataError "E") := by
    rw [convert]
    simp [is_model, modelPath, className, ctxC]
  have h2 : convert ctxC regEmpty pythonDict (.vModel "C" []) none
      = .ok (.vDict []) := by
    rw [convert_model ctxC regEmpty pythonDict "C" [] [] none (by simp [ctxC])]
    simp [convertFields_nil, pythonDict]
  exact ⟨h1, h2, by rw [h1, h2]; simp⟩

/-- C5 amended: under any non-absent enclosing field, converting an
enumeration member equals converting its underlying value under the
same field (one indirection); at the root the identity can fail, since
dispatch step 1 applies to the member itself. -/
theorem C5_enum_transparency (ctx : XmlContext) (reg : Registry)
    (df : DictFactory) (cls : String) (u : PyVal) (f : FieldDescriptor) :
    convert ctx reg df (.vEnum cls u) (some f) = convert ctx reg df u (some f) :=
  convert_enum_some ctx reg df cls u f

/-- C6: whenever dispatch step 1 applies (absent enclosing field or
model value) to a value that is itself a collection, convert recurses
element-wise with no enclosing field and returns a list-shaped
collection preserving element order. -/
theorem C6_step1_collection (ctx : XmlContext) (reg : Registry)
    (df : DictFactory) (k : ContainerKind) (xs ys : List PyVal)
    (var : Option FieldDescriptor)
    (hstep1 : var = none ∨ is_model ctx (.vColl k xs) = true)
    (h : convertElems ctx reg df xs none = .ok ys) :
    convert ctx reg df (.vColl k xs) var = .ok (.vColl .list ys)
    ∧ ys.length = xs.length
    ∧ ∀ i (hi : i < xs.length), ∃ hy : i < ys.length,
        convert ctx reg df (xs.get ⟨i, hi⟩) none = .ok (ys.get ⟨i, hy⟩) := by
  have hvar : var = none := by
    rcases hstep1 with hv | hm
    · exact hv
    · simp [is_model] at hm
  subst hvar
  obtain ⟨hlen, hget⟩ := convertElems_ok ctx reg df none xs ys h
  refine ⟨?_, hlen, hget⟩
  rw [convert_coll_none ctx reg df k xs, h]
  rfl

/-- C6 witness: a singleton list holding a Point record converts at the
root to the singleton list of its map. -/
theorem C6_witness :
    convert ctxPoint regEmpty pythonDict
      (.vColl .list [ .vModel "Point" [ ("x", .vInt 1), ("y", .vInt 2) ] ]) none
      = .ok (.vColl .list [ .vDict [ ("x", .vInt 1), ("y", .vInt 2) ] ]) := by
  have h := C6_step1_collection ctxPoint regEmpty pythonDict .list
    [ .vModel "Point" [ ("x", .vInt 1), ("y", .vInt 2) ] ]
    [ .vDict [ ("x", .vInt 1), ("y", .vInt 2) ] ] none
    (Or.inl rfl)
    (by simp [convertElems, goList, convert, is_model, modelPath, className,
      ctxPoint, modelFields, goVars, getattr, fdX, fdY, pythonDict, dictInsert,
      List.foldl])
  exact h.1

/-- C7: an opaque scalar whose runtime type has no registered converter
makes the conversion fail with the distinguishable unknown-type error,
and any error arising while converting a record's fields or a
collection's elements propagates unchanged to the enclosing convert
call: the result is the error itself, never a partial map or
sequence. -/
theorem C7_unknown_type_propagation (ctx : XmlContext) (reg : Registry)
    (df : DictFactory) :
    (∀ cls f, reg cls f.format = none →
      convert ctx reg df (.vOpaque cls) (some f) = .error (.unknownType cls))
    ∧ (∀ cls fields vars var e, ctx cls = some vars →
        convertFields ctx reg df cls fields vars = .error e →
        convert ctx reg df (.vModel cls fields) var = .error e)
    ∧ (∀ k xs f e, convertElems ctx reg df xs (some f) = .error e →
        convert ctx reg df (.vColl k xs) (some f) = .error e)
    ∧ (∀ k xs e, convertElems ctx reg df xs none = .error e →
        convert ctx reg df (.vColl k xs) none = .error e) := by
  refine ⟨?_, ?_, ?_, ?_⟩
  · intro cls f h
    exact convert_opaque_some ctx reg df cls f h
  · intro cls fields vars var e hctx h
    rw [convert_model ctx reg df cls fields vars var hctx, h]
    rfl
  · intro k xs f e h
    rw [convert_coll_some ctx reg df k xs f, h]
    rfl
  · intro k xs e h
    rw [convert_coll_none ctx reg df k xs, h]
    rfl

/-- C7 witness: a Decimal-classed opaque with no registered converter
fails alone under a field, and a Point record holding it fails as a
whole with the same error and no partial map. -/
theorem C7_witness :
    convert ctxPoint regEmpty pythonDict (.vOpaque "Decimal") (some fdX)
      = .error (.unknownType "Decimal")
    ∧ convert ctxPoint regEmpty pythonDict
        (.vModel "Point" [ ("x", .vOpaque "Decimal"), ("y", .vInt 2) ]) none
      = .error (.unknownType "Decimal") := by
  have h := C7_unknown_type_propagation ctxPoint regEmpty pythonDict
  refine ⟨h.1 "Decimal" fdX rfl, ?_⟩
  exact h.2.1 "Point" [ ("x", .vOpaque "Decimal"), ("y", .vInt 2) ]
    [fdX, fdY] none (.unknownType "Decimal") (by simp [ctxPoint])
    (by simp [convertFields, goVars, getattr, convert, is_model,
      converterSerialize, className, fdX, fdY, regEmpty])

/-- C9: the concrete container shape of a converted collection depends
on the call position: at the root (no enclosing field) any collection
converts to a list-shaped result, while under a non-absent enclosing
field the collection's own shape (for example a tuple) is rebuilt. -/
theorem C9_container_shape_by_position (ctx : XmlContext) (reg : Registry)
    (df : DictFactory) (k : ContainerKind) (xs : List PyVal)
    (f : FieldDescriptor) :
    (∀ ys, convertElems ctx reg df xs none = .ok ys →
      convert ctx reg df (.vColl k xs) none = .ok (.vColl .list ys))
    ∧ (∀ ys, convertElems ctx reg df xs (some f) = .ok ys →
      convert ctx reg df (.vColl k xs) (some f) = .ok (.vColl k ys)) := by
  constructor
  · intro ys h
    rw [convert_coll_none ctx reg df k xs, h]
    rfl
  · intro ys h
    rw [convert_coll_some ctx reg df k xs f, h]
    rfl

/-- C9 witness: a tuple of one Point converts at the root to a list,
while a tuple of one integer under a field stays a tuple. -/
theorem C9_witness :
    convert ctxPoint regEmpty pythonDict
      (.vColl .tuple [ .vModel "Point" [ ("x", .vInt 1), ("y", .vInt 2) ] ]) none
      = .ok (.vColl .list [ .vDict [ ("x", .vInt 1), ("y", .vInt 2) ] ])
    ∧ convert ctxPoint regEmpty pythonDict
      (.vColl .tuple [ .vInt 7 ]) (some fdX)
      = .ok (.vColl .tuple [ .vInt 7 ]) := by
  constructor
  · exact (C9_container_shape_by_position ctxPoint regEmpty pythonDict .tuple
      [ .vModel "Point" [ ("x", .vInt 1), ("y", .vInt 2) ] ] fdX).1
      [ .vDict [ ("x", .vInt 1), ("y", .vInt 2) ] ]
      (by simp [convertElems, goList, convert, is_model, modelPath, className,
        ctxPoint, modelFields, goVars, getattr, fdX, fdY, pythonDict,
        dictInsert, List.foldl])
  · exact (C9_container_shape_by_position ctxPoint regEmpty pythonDict .tuple
      [ .vInt 7 ] fdX).2 [ .vInt 7 ]
      (by simp [convertElems, goList, convert, is_model])

/-! Embedding of resolve_source of src/xsdata/cli.py, lines 194 to 205.
The filesystem operations it calls (Path resolution, directory test,
glob and URI formatting) are runtime services abstracted as a record of
functions; the control flow and the fixed extension order are taken
from the source. -/

/-- Whether the pattern is a prefix of the character list. -/
def listPre : List Char → List Char → Bool
  | [], _ => true
  | _ :: _, [] => false
  | p :: ps, c :: cs => p == c && listPre ps cs

/-- Embedding of the Python test source.startswith(pat). -/
def strStartsWith (s pat : String) : Bool :=
  listPre pat.data s.data

/-- Whether the pattern occurs somewhere in the character list. -/
def listHasPre (pat : List Char) : List Char → Bool
  | [] => listPre pat []
  | c :: cs => listPre pat (c :: cs) || listHasPre pat cs

/-- Embedding of the Python test source.find(pat) > -1: the pattern
occurs in the string. -/
def strHasSubstr (s pat : String) : Bool :=
  listHasPre pat.data s.data

/-- The filesystem services resolve_source consumes: Path.resolve, the
directory test, Path.glob on a pattern, and Path.as_uri. -/
structure FileSystem where
  resolve : String → String
  is_dir : String → Bool
  glob : String → String → List String
  as_uri : String → String

/-- Embedding of resolve_source of cli.py: a source containing the
scheme separator and not starting with the file scheme is yielded
verbatim; otherwise the path is resolved and either globbed by
extension in the fixed order wsdl, xsd, xml, json (directory) or
yielded as a single URI (file). -/
def resolve_source (fs : FileSystem) (source : String) : List String :=
  if strHasSubstr source ( "://" ) && !(strStartsWith source ( "file://" )) then
    [source]
  else
    let path := fs.resolve source
    if fs.is_dir path then
      (fs.glob path ( "*.wsdl" )).map fs.as_uri
        ++ (fs.glob path ( "*.xsd" )).map fs.as_uri
        ++ (fs.glob path ( "*.xml" )).map fs.as_uri
        ++ (fs.glob path ( "*.json" )).map fs.as_uri
    else
      [fs.as_uri path]

/-- C10: resolve_source yields the source string verbatim as single
result exactly when it contains the scheme separator and does not start
with the file scheme; otherwise it resolves the path and, for a
directory, yields the URIs of the globbed files grouped by extension in
the order wsdl, xsd, xml, json, while for a non-directory it yields the
single resolved path's URI. -/
theorem C10_resolve_source_cases (fs : FileSystem) (source : String) :
    (strHasSubstr source ( "://" ) = true
      ∧ strStartsWith source ( "file://" ) = false →
      resolve_source fs source = [source])
    ∧ ((strHasSubstr source ( "://" ) = false
        ∨ strStartsWith source ( "file://" ) = true) →
      fs.is_dir (fs.resolve source) = true →
      resolve_source fs source
        = (fs.glob (fs.resolve source) ( "*.wsdl" )).map fs.as_uri
          ++ (fs.glob (fs.resolve source) ( "*.xsd" )).map fs.as_uri
          ++ (fs.glob (fs.resolve source) ( "*.xml" )).map fs.as_uri
          ++ (fs.glob (fs.resolve source) ( "*.json" )).map fs.as_uri)
    ∧ ((strHasSubstr source ( "://" ) = false
        ∨ strStartsWith source ( "file://" ) = true) →
      fs.is_dir (fs.resolve source) = false →
      resolve_source fs source = [fs.as_uri (fs.resolve source)]) := by
  refine ⟨?_, ?_, ?_⟩
  · intro h
    rw [resolve_source]
    simp [h.1, h.2]
  · intro h hdir
    rw [resolve_source]
    rcases h with h | h <;> simp [h, hdir]
  · intro h hdir
    rw [resolve_source]
    rcases h with h | h <;> simp [h, hdir]

/-- A filesystem fixture whose resolver is the identity, with no
directories. -/
def fsFile : FileSystem :=
  { resolve := fun p => p
    is_dir := fun _ => false
    glob := fun _ _ => []
    as_uri := fun p => String.append ( "file://" ) p }

/-- A filesystem fixture where every path is a directory containing one
file per extension. -/
def fsDir : FileSystem :=
  { resolve := fun p => p
    is_dir := fun _ => true
    glob := fun _ pat =>
      if pat = "*.wsdl" then [ "w.wsdl" ]
      else if pat = "*.xsd" then [ "s.xsd" ]
      else if pat = "*.xml" then [ "x.xml" ]
      else [ "j.json" ]
    as_uri := fun p => p }

/-- C10 witness: a remote URL is yielded verbatim; a directory source
yields the contained files grouped wsdl, xsd, xml, json; a plain file
source yields its single URI. -/
theorem C10_witness :
    resolve_source fsFile ( "http://host/a.xsd" ) = [ "http://host/a.xsd" ]
    ∧ resolve_source fsDir ( "schemas" )
        = [ "w.wsdl", "s.xsd", "x.xml", "j.json" ]
    ∧ resolve_source fsFile ( "a.xsd" ) = [ "file://a.xsd" ] := by
  refine ⟨?_, ?_, ?_⟩
  · exact (C10_resolve_source_cases fsFile ( "http://host/a.xsd" )).1
      ⟨by decide, by decide⟩
  · exact ((C10_resolve_source_cases fsDir ( "schemas" )).2.1
      (Or.inl (by decide)) rfl).trans (by decide)
  · exact ((C10_resolve_source_cases fsFile ( "a.xsd" )).2.2
      (Or.inl (by decide)) rfl).trans (by decide)
